import Mathlib

/-!
Verification development for the flag-submission and scoring core of a CTF
competition platform.  The definitions below are a shallow embedding of the
TypeScript source: the persistence layer is a record of lists (one per table),
`async` storage methods become pure state-passing functions, JavaScript
timestamps become integers counting milliseconds, and JavaScript's
floating-point arithmetic in the difficulty formula is modelled with rationals.

Two storage variants exist in the source and are embedded separately where
they differ: `DatabaseStorage` (drizzle/postgres backed) and `MemStorage`
(in-process maps).  The HTTP submission route is embedded as `submitFlag`,
composed with the `MemStorage` operations exactly as the source wires it
(the exported singleton storage is a `MemStorage`).
-/

namespace AOHF

/-- Row of the `users` table (src/shared/schema.ts); only the columns the
submission/scoring core reads or writes are carried. -/
structure User where
  id : Nat
  username : String
  score : Int
  solveStreak : Nat
  lastSolveAt : Option Int
  deriving Repr, DecidableEq

/-- Row of the `challenges` table; columns relevant to the core. -/
structure Challenge where
  id : Nat
  points : Int
  flag : String
  isActive : Bool
  totalSolves : Nat
  deriving Repr, DecidableEq

/-- Row of the `solves` table.  `pointsAwarded` is `none` for rows created by
`MemStorage.createSolve`, whose solve object carries no such field. -/
structure Solve where
  id : Nat
  userId : Nat
  challengeId : Nat
  solvedAt : Int
  solveTime : Option Int
  isFirstBlood : Bool
  hintsUsed : Nat
  pointsAwarded : Option Int
  deriving Repr, DecidableEq

/-- Row of the `flag_submissions` table (the forensic log). -/
structure FlagSubmission where
  id : Nat
  userId : Nat
  challengeId : Nat
  submittedFlag : String
  isCorrect : Bool
  ipAddress : Option String
  userAgent : Option String
  submittedAt : Int
  deriving Repr, DecidableEq

/-- Row of the `rate_limits` table. -/
structure RateLimit where
  id : Nat
  userId : Nat
  challengeId : Nat
  attempts : Nat
  lastAttempt : Int
  nextAllowedAt : Option Int
  deriving Repr, DecidableEq

/-- The persisted state the core reads and writes: one list per table plus the
serial-id counters. -/
structure StorageState where
  users : List User
  challenges : List Challenge
  solves : List Solve
  flagSubmissions : List FlagSubmission
  rateLimits : List RateLimit
  nextSolveId : Nat
  nextSubmissionId : Nat
  nextRateLimitId : Nat
  deriving Repr, DecidableEq

/-- `getUser`: first row whose id matches (both storages select by id). -/
def getUser (st : StorageState) (id : Nat) : Option User :=
  st.users.find? (fun u => u.id == id)

/-- `getChallenge`. -/
def getChallenge (st : StorageState) (id : Nat) : Option Challenge :=
  st.challenges.find? (fun c => c.id == id)

/-- `getSolve(userId, challengeId)`. -/
def getSolve (st : StorageState) (userId challengeId : Nat) : Option Solve :=
  st.solves.find? (fun s => s.userId == userId && s.challengeId == challengeId)

/-- `getRateLimit(userId, challengeId)`. -/
def getRateLimit (st : StorageState) (userId challengeId : Nat) : Option RateLimit :=
  st.rateLimits.find? (fun r => r.userId == userId && r.challengeId == challengeId)

/-- `getFlagSubmissions(userId, challengeId)`: all log rows of the pair. -/
def getFlagSubmissions (st : StorageState) (userId challengeId : Nat) : List FlagSubmission :=
  st.flagSubmissions.filter (fun s => s.userId == userId && s.challengeId == challengeId)

/-! ### Flag validation -/

/-- Characters removed by JavaScript's `String.prototype.trim`
(ASCII whitespace, NBSP, BOM, line and paragraph separators). -/
def isJsWhitespace (c : Char) : Bool :=
  c == ' ' || c == '\x09' || c == '\x0a' || c == '\x0d' || c == '\x0b' || c == '\x0c' ||
  c == '\u00A0' || c == '\uFEFF' || c == '\u2028' || c == '\u2029'

/-- JavaScript `s.trim()`: drop leading and trailing whitespace. -/
def jsTrim (s : String) : String :=
  String.mk (((s.data.dropWhile isJsWhitespace).reverse.dropWhile isJsWhitespace).reverse)

/-- The flag comparison performed by both submit routes:
`submittedFlag.trim() === challenge.flag.trim()` (exact, case-sensitive). -/
def flagMatches (submitted storedFlag : String) : Bool :=
  jsTrim submitted == jsTrim storedFlag

/-! ### Rate limiter -/

/-- Progressive delay of the first submit route: start at 5 seconds, overwrite
with 10 when `attempts >= 2`, then with 15 when `attempts >= 3`. -/
def progressiveDelay (attempts : Nat) : Nat :=
  let d := 5
  let d := if attempts ≥ 2 then 10 else d
  if attempts ≥ 3 then 15 else d

/-- Progressive delay of the second route variant's `updateRateLimit` helper:
`Math.min(5 + (attempts - 1) * 5, 15)`. -/
def progressiveDelayMin (attempts : Int) : Int :=
  min (5 + (attempts - 1) * 5) 15

/-- `attempts` computed on the wrong-flag branch of the first submit route:
`(currentRateLimit?.attempts || 0) + 1`. -/
def failureAttempts (st : StorageState) (userId challengeId : Nat) : Nat :=
  (match getRateLimit st userId challengeId with
   | some r => r.attempts
   | none => 0) + 1

/-- `MemStorage.updateRateLimit`: stores a fresh record under the pair key
(replacing any existing entry in place, as `Map.set` does) and always bumps the
serial counter. -/
def memUpdateRateLimit (st : StorageState) (userId challengeId attempts : Nat)
    (now : Int) (nextAllowedAt : Option Int) : StorageState :=
  let rl : RateLimit :=
    { id := st.nextRateLimitId, userId := userId, challengeId := challengeId,
      attempts := attempts, lastAttempt := now, nextAllowedAt := nextAllowedAt }
  if (getRateLimit st userId challengeId).isSome then
    { st with
      rateLimits := st.rateLimits.map (fun r =>
        if r.userId == userId && r.challengeId == challengeId then rl else r),
      nextRateLimitId := st.nextRateLimitId + 1 }
  else
    { st with
      rateLimits := st.rateLimits ++ [rl],
      nextRateLimitId := st.nextRateLimitId + 1 }

/-- `canSubmitFlag` (identical in both storages): allowed when no rate-limit
record exists, when it has no `nextAllowedAt`, or when now is at or past it. -/
def canSubmitFlag (st : StorageState) (userId challengeId : Nat) (now : Int) : Bool :=
  match getRateLimit st userId challengeId with
  | none => true
  | some r =>
    match r.nextAllowedAt with
    | none => true
    | some t => now ≥ t

/-! ### Scoring and streak engine -/

/-- Milliseconds in a day, the divisor `1000 * 60 * 60 * 24` of the source. -/
def msPerDay : Int := 1000 * 60 * 60 * 24

/-- Replace every user row with a matching id (the `update ... where id = _`
of the source; `MemStorage` keys its map by id, same observable effect). -/
def setUser (st : StorageState) (u : User) : StorageState :=
  { st with users := st.users.map (fun v => if v.id == u.id then u else v) }

/-- `DatabaseStorage.updateUserScoreAndStreak`: add the points to the score,
apply the day-difference streak rule, and stamp `lastSolveAt` with now.
`daysDiff` is `Math.floor((now - lastSolveAt) / msPerDay)`, which on integer
operands is floor division (`Int.fdiv`). -/
def updateUserScoreAndStreak (st : StorageState) (userId : Nat) (points : Int)
    (now : Int) : StorageState :=
  match getUser st userId with
  | none => st
  | some user =>
    let newScore := user.score + points
    let newStreak : Nat :=
      match user.lastSolveAt with
      | some lastSolveDate =>
        let daysDiff := Int.fdiv (now - lastSolveDate) msPerDay
        if daysDiff = 1 then user.solveStreak + 1
        else if daysDiff > 1 then 1
        else user.solveStreak
      | none => 1
    setUser st { user with score := newScore, solveStreak := newStreak, lastSolveAt := some now }

/-! ### Solve recorder -/

/-- `DatabaseStorage.checkFirstBlood`: count of solve rows of the challenge is
zero. -/
def checkFirstBlood (st : StorageState) (challengeId : Nat) : Bool :=
  st.solves.countP (fun s => s.challengeId == challengeId) == 0

/-- `MemStorage.checkFirstBlood`: no solve row of the challenge exists. -/
def checkFirstBloodMem (st : StorageState) (challengeId : Nat) : Bool :=
  !(st.solves.any (fun s => s.challengeId == challengeId))

/-- Increment `totalSolves` of the challenge row (the drizzle
`totalSolves + 1` update of `DatabaseStorage.createSolve`). -/
def bumpTotalSolves (st : StorageState) (challengeId : Nat) : StorageState :=
  { st with
    challenges := st.challenges.map (fun c =>
      if c.id == challengeId then { c with totalSolves := c.totalSolves + 1 } else c) }

/-- `DatabaseStorage.createSolve`: determine first blood, snapshot the
challenge points, insert the solve row, update score and streak, and bump the
challenge's solve counter.  The best-effort achievement insert touches only
the achievements table, which no property here observes, and is left out. -/
def createSolveDb (st : StorageState) (userId challengeId : Nat) (now : Int) :
    StorageState × Solve :=
  let isFirstBlood := checkFirstBlood st challengeId
  let pointsAwarded : Int :=
    match getChallenge st challengeId with
    | some challenge => challenge.points
    | none => 0
  let solve : Solve :=
    { id := st.nextSolveId, userId := userId, challengeId := challengeId,
      solvedAt := now, solveTime := none, isFirstBlood := isFirstBlood,
      hintsUsed := 0, pointsAwarded := some pointsAwarded }
  let st1 : StorageState :=
    { st with solves := st.solves ++ [solve], nextSolveId := st.nextSolveId + 1 }
  let st2 := updateUserScoreAndStreak st1 userId pointsAwarded now
  (bumpTotalSolves st2 challengeId, solve)

/-- `Map.set` on the `MemStorage` solves map keyed by the (user, challenge)
pair: replace the entry in place when the key exists, else append. -/
def memSetSolve (solves : List Solve) (s : Solve) : List Solve :=
  if solves.any (fun t => t.userId == s.userId && t.challengeId == s.challengeId) then
    solves.map (fun t =>
      if t.userId == s.userId && t.challengeId == s.challengeId then s else t)
  else solves ++ [s]

/-- `MemStorage.createSolve`: store the solve under the pair key, then, when
both the challenge and the user exist, add the challenge points plus a flat 50
first-blood bonus to the user's score.  No streak, `lastSolveAt`, or
`totalSolves` update happens in this variant. -/
def createSolveMem (st : StorageState) (userId challengeId : Nat) (now : Int) :
    StorageState × Solve :=
  let isFirstBlood := checkFirstBloodMem st challengeId
  let solve : Solve :=
    { id := st.nextSolveId, userId := userId, challengeId := challengeId,
      solvedAt := now, solveTime := none, isFirstBlood := isFirstBlood,
      hintsUsed := 0, pointsAwarded := none }
  let st1 : StorageState :=
    { st with solves := memSetSolve st.solves solve, nextSolveId := st.nextSolveId + 1 }
  match getChallenge st1 challengeId, getUser st1 userId with
  | some challenge, some user =>
    let points := challenge.points + (if isFirstBlood then 50 else 0)
    (setUser st1 { user with score := user.score + points }, solve)
  | _, _ => (st1, solve)

/-! ### Forensics logger -/

/-- `DatabaseStorage.createFlagSubmission`: append one log row;
`ipAddress || null` and `userAgent || null` turn an absent or empty string
into NULL. -/
def orNull (s : Option String) : Option String :=
  match s with
  | some t => if t == "" then none else some t
  | none => none

/-- Append-only insert into the forensic log, `DatabaseStorage` variant. -/
def createFlagSubmissionDb (st : StorageState) (userId challengeId : Nat)
    (submittedFlag : String) (isCorrect : Bool) (ipAddress userAgent : Option String)
    (now : Int) : StorageState :=
  { st with
    flagSubmissions := st.flagSubmissions ++
      [{ id := st.nextSubmissionId, userId := userId, challengeId := challengeId,
         submittedFlag := submittedFlag, isCorrect := isCorrect,
         ipAddress := orNull ipAddress, userAgent := orNull userAgent,
         submittedAt := now }],
    nextSubmissionId := st.nextSubmissionId + 1 }

/-- `MemStorage.createFlagSubmission`: append one log row.  The source spreads
the insert object and then writes `isCorrect: false`, so the stored row is
always marked incorrect regardless of the argument. -/
def createFlagSubmissionMem (st : StorageState) (userId challengeId : Nat)
    (submittedFlag : String) (_isCorrect : Bool) (ipAddress userAgent : Option String)
    (now : Int) : StorageState :=
  { st with
    flagSubmissions := st.flagSubmissions ++
      [{ id := st.nextSubmissionId, userId := userId, challengeId := challengeId,
         submittedFlag := submittedFlag, isCorrect := false,
         ipAddress := ipAddress, userAgent := userAgent, submittedAt := now }],
    nextSubmissionId := st.nextSubmissionId + 1 }

/-! ### The submission route -/

/-- Outcome of `POST /api/challenges/:id/submit`. -/
inductive SubmitResult where
  | rateLimited
  | alreadySolved
  | challengeNotFound
  | correct (points : Int)
  | incorrect (delay : Nat)
  deriving Repr, DecidableEq

/-- The first submit route, composed with the `MemStorage` singleton exactly
as the source wires it: rate-limit gate, already-solved gate, challenge
lookup, trimmed flag comparison, unconditional forensic log append, then
either `createSolve` or the progressive rate-limit update with
`nextAllowedAt = now + delay * 1000`.  This route passes no ip or user agent
to the log. -/
def submitFlag (st : StorageState) (userId challengeId : Nat) (submittedFlag : String)
    (now : Int) : StorageState × SubmitResult :=
  if !canSubmitFlag st userId challengeId now then
    (st, .rateLimited)
  else if (getSolve st userId challengeId).isSome then
    (st, .alreadySolved)
  else
    match getChallenge st challengeId with
    | none => (st, .challengeNotFound)
    | some challenge =>
      let isCorrect := flagMatches submittedFlag challenge.flag
      let st1 := createFlagSubmissionMem st userId challengeId submittedFlag isCorrect
        none none now
      if isCorrect then
        ((createSolveMem st1 userId challengeId now).1, .correct challenge.points)
      else
        let attempts := failureAttempts st1 userId challengeId
        let delay := progressiveDelay attempts
        (memUpdateRateLimit st1 userId challengeId attempts now (some (now + delay * 1000)),
         .incorrect delay)

/-- Wrong-flag branch of the second route variant: append the log row, count
every log row of the pair, and feed that count to the in-process
`updateRateLimit` helper with the capped-minimum delay formula.  Returns the
stored attempt count, the delay in seconds, and the next-allowed timestamp. -/
def route2WrongUpdate (st : StorageState) (userId challengeId : Nat)
    (submittedFlag : String) (ipAddress userAgent : Option String) (now : Int) :
    StorageState × Nat × Int × Int :=
  let st1 := createFlagSubmissionMem st userId challengeId submittedFlag false
    ipAddress userAgent now
  let attempts := (getFlagSubmissions st1 userId challengeId).length
  let delay := progressiveDelayMin attempts
  (st1, attempts, delay, now + delay * 1000)

/-! ### Forensics read path -/

/-- First-occurrence deduplication, the order JavaScript's
`[...new Set(xs)]` produces. -/
def dedupFirst {α : Type} [BEq α] (l : List α) : List α :=
  l.foldl (fun acc x => if acc.contains x then acc else acc ++ [x]) []

/-- Row filter of `getSubmissionForensics`: wrong submissions, further
restricted to the challenge when the argument is present and truthy
(JavaScript `if (challengeId)` treats 0 as absent). -/
def forensicsWrongFilter (challengeId : Option Nat) (s : FlagSubmission) : Bool :=
  match challengeId with
  | some c => if c ≠ 0 then !s.isCorrect && s.challengeId == c else !s.isCorrect
  | none => !s.isCorrect

/-- The filtered wrong-submission list ordered by `submittedAt` descending
(the `orderBy desc` of the source; ties broken by merge-sort stability). -/
def forensicsSorted (st : StorageState) (challengeId : Option Nat) : List FlagSubmission :=
  (st.flagSubmissions.filter (forensicsWrongFilter challengeId)).mergeSort
    (fun a b => b.submittedAt ≤ a.submittedAt)

/-- Aggregates returned by `DatabaseStorage.getSubmissionForensics`. -/
structure ForensicsResult where
  wrongFlags : List String
  timeGaps : List Int
  ipLogs : List String
  browserFingerprints : List String
  deriving Repr, DecidableEq

/-- `DatabaseStorage.getSubmissionForensics`: distinct wrong flags, the gap in
whole seconds between each submission and the chronologically previous one
(`Math.floor((submissions[i].t - submissions[i+1].t) / 1000)` over the
descending list), and distinct non-empty ips and user agents. -/
def getSubmissionForensics (st : StorageState) (challengeId : Option Nat) :
    ForensicsResult :=
  let submissions := forensicsSorted st challengeId
  { wrongFlags := dedupFirst (submissions.map (fun s => s.submittedFlag)),
    timeGaps := List.zipWith
      (fun a b => Int.fdiv (a.submittedAt - b.submittedAt) 1000)
      submissions (submissions.drop 1),
    ipLogs := dedupFirst ((submissions.filterMap (fun s => s.ipAddress)).filter
      (fun s => s ≠ "")),
    browserFingerprints := dedupFirst ((submissions.filterMap (fun s => s.userAgent)).filter
      (fun s => s ≠ "")) }

/-! ### Challenge analytics -/

/-- Aggregates returned by `DatabaseStorage.getChallengeAnalytics`. -/
structure ChallengeAnalytics where
  totalAttempts : Nat
  uniqueSolvers : Nat
  averageSolveTime : Int
  difficultyRating : Int
  deriving Repr, DecidableEq

/-- `DatabaseStorage.getChallengeAnalytics`: attempts is the count of log rows
of the challenge, solvers the count of its solve rows, the average solve time
the floored mean of the non-null solve times (0 when none), and the difficulty
rating `min(10, floor((attempts / max(1, solvers)) * 2))` with a default of 5
when there are no attempts.  JavaScript's float division is modelled
exactly with rationals. -/
def getChallengeAnalytics (st : StorageState) (challengeId : Nat) : ChallengeAnalytics :=
  let attemptsCount := st.flagSubmissions.countP (fun s => s.challengeId == challengeId)
  let solversCount := st.solves.countP (fun s => s.challengeId == challengeId)
  let solveTimes :=
    (st.solves.filter (fun s => s.challengeId == challengeId)).filterMap
      (fun s => s.solveTime)
  let averageSolveTime : Int :=
    if solveTimes.length = 0 then 0
    else ⌊((solveTimes.sum : ℚ) / (solveTimes.length : ℚ))⌋
  let difficultyRating : Int :=
    if attemptsCount > 0 then
      min 10 ⌊((attemptsCount : ℚ) / (max 1 (solversCount : ℚ))) * 2⌋
    else 5
  { totalAttempts := attemptsCount, uniqueSolvers := solversCount,
    averageSolveTime := averageSolveTime, difficultyRating := difficultyRating }

/-! ### Interleaving model of `DatabaseStorage.createSolve`

Every `await` in the source is a suspension point at which another request's
`createSolve` may run.  The phases below split `createSolve` at its awaits:
the first-blood read, the challenge read, the solve insert, and the tail
(score, streak and counter updates, which touch neither the solves list nor
the first-blood decision). -/

inductive SolvePhase where
  | atCheck
  | atPoints (isFirstBlood : Bool)
  | atInsert (isFirstBlood : Bool) (pointsAwarded : Int)
  | atTail (pointsAwarded : Int)
  | finished
  deriving Repr, DecidableEq

/-- One in-flight `DatabaseStorage.createSolve` call. -/
structure PendingSolve where
  userId : Nat
  challengeId : Nat
  now : Int
  phase : SolvePhase
  deriving Repr, DecidableEq

/-- Run one suspension-to-suspension segment of an in-flight `createSolve`. -/
def stepSolve (st : StorageState) (p : PendingSolve) : StorageState × PendingSolve :=
  match p.phase with
  | .atCheck =>
    (st, { p with phase := .atPoints (checkFirstBlood st p.challengeId) })
  | .atPoints fb =>
    let pts : Int :=
      match getChallenge st p.challengeId with
      | some challenge => challenge.points
      | none => 0
    (st, { p with phase := .atInsert fb pts })
  | .atInsert fb pts =>
    let solve : Solve :=
      { id := st.nextSolveId, userId := p.userId, challengeId := p.challengeId,
        solvedAt := p.now, solveTime := none, isFirstBlood := fb,
        hintsUsed := 0, pointsAwarded := some pts }
    ({ st with solves := st.solves ++ [solve], nextSolveId := st.nextSolveId + 1 },
     { p with phase := .atTail pts })
  | .atTail pts =>
    (bumpTotalSolves (updateUserScoreAndStreak st p.userId pts p.now) p.challengeId,
     { p with phase := .finished })
  | .finished => (st, p)

/-- Interleave two in-flight `createSolve` calls under a schedule: `false`
steps the first call, `true` the second. -/
def runSchedule (st : StorageState) (a b : PendingSolve) :
    List Bool → StorageState × PendingSolve × PendingSolve
  | [] => (st, a, b)
  | pick :: rest =>
    if pick then
      let r := stepSolve st b
      runSchedule r.1 a r.2 rest
    else
      let r := stepSolve st a
      runSchedule r.1 r.2 b rest

/-! ### Invariants and example states -/

/-- At most one solve row per (user, challenge) pair, expressed as pairwise
key distinctness of the solves table. -/
def solvesKeyUnique (l : List Solve) : Prop :=
  l.Pairwise (fun a b => ¬(a.userId = b.userId ∧ a.challengeId = b.challengeId))

/-- One rate-limit row per (user, challenge) pair (the table is upserted). -/
def rateLimitsKeyUnique (l : List RateLimit) : Prop :=
  l.Pairwise (fun a b => ¬(a.userId = b.userId ∧ a.challengeId = b.challengeId))

/-- A rate-limit record whose next-allowed time (if any) is not in the future
of `t`. -/
def rateLimitSettled (r : RateLimit) (t : Int) : Bool :=
  match r.nextAllowedAt with
  | some na => na ≤ t
  | none => true

/-- Inductive invariant of the submission flow at time `t`: solve and
rate-limit keys are unique, and the rate-limit record of every already-solved
pair is settled (its `nextAllowedAt` was reached before the solve and hence
before `t`). -/
def submitInv (st : StorageState) (t : Int) : Prop :=
  solvesKeyUnique st.solves ∧ rateLimitsKeyUnique st.rateLimits ∧
  ∀ s ∈ st.solves, ∀ r ∈ st.rateLimits,
    r.userId = s.userId → r.challengeId = s.challengeId → rateLimitSettled r t = true

instance (st : StorageState) (t : Int) : Decidable (submitInv st t) := by
  unfold submitInv solvesKeyUnique rateLimitsKeyUnique
  infer_instance

/-- A user with no solves yet. -/
def aliceUser : User :=
  { id := 1, username := "alice", score := 0, solveStreak := 0, lastSolveAt := none }

/-- A second user with no solves yet. -/
def bobUser : User :=
  { id := 2, username := "bob", score := 0, solveStreak := 0, lastSolveAt := none }

/-- A fresh 100-point challenge. -/
def demoChallenge : Challenge :=
  { id := 1, points := 100, flag := "CTF\x7babc\x7d", isActive := true, totalSolves := 0 }

/-- A fresh platform state: two users, one challenge, nothing submitted. -/
def baseSt : StorageState :=
  { users := [aliceUser, bobUser], challenges := [demoChallenge], solves := [],
    flagSubmissions := [], rateLimits := [], nextSolveId := 1, nextSubmissionId := 1,
    nextRateLimitId := 1 }

/-- Alice's in-flight `createSolve` for challenge 1. -/
def raceA : PendingSolve := { userId := 1, challengeId := 1, now := 0, phase := .atCheck }

/-- Bob's in-flight `createSolve` for challenge 1. -/
def raceB : PendingSolve := { userId := 2, challengeId := 1, now := 0, phase := .atCheck }

/-- State after one wrong submission by Alice on challenge 1. -/
def wrongSt1 : StorageState := (submitFlag baseSt 1 1 "nope" 0).1

/-- State after two wrong submissions (second one past the 5-second delay). -/
def wrongSt2 : StorageState := (submitFlag wrongSt1 1 1 "nope" 10000).1

/-- State after three wrong submissions. -/
def wrongSt3 : StorageState := (submitFlag wrongSt2 1 1 "nope" 30000).1

/-- A user carrying a streak, for exercising the streak rule. -/
def streakUser : User :=
  { id := 3, username := "carol", score := 40, solveStreak := 2, lastSolveAt := some 0 }

/-- State whose only user has solved before. -/
def streakSt : StorageState := { baseSt with users := [streakUser] }

/-- State in which Alice has already solved challenge 1 and her old rate-limit
record is settled. -/
def solvedSt : StorageState :=
  { baseSt with
    solves := [{ id := 1, userId := 1, challengeId := 1, solvedAt := 100,
                 solveTime := none, isFirstBlood := true, hintsUsed := 0,
                 pointsAwarded := some 100 }],
    rateLimits := [{ id := 1, userId := 1, challengeId := 1, attempts := 1,
                     lastAttempt := 0, nextAllowedAt := some 50 }] }

/-- Submission log spanning two challenges, for the forensics scoping check. -/
def forensicsSt : StorageState :=
  { baseSt with
    flagSubmissions :=
      [{ id := 1, userId := 1, challengeId := 1, submittedFlag := "a",
         isCorrect := false, ipAddress := some "1.1.1.1", userAgent := some "ua1",
         submittedAt := 0 },
       { id := 2, userId := 1, challengeId := 2, submittedFlag := "b",
         isCorrect := false, ipAddress := some "2.2.2.2", userAgent := some "ua2",
         submittedAt := 5000 },
       { id := 3, userId := 2, challengeId := 1, submittedFlag := "cde",
         isCorrect := false, ipAddress := some "1.1.1.1", userAgent := none,
         submittedAt := 12000 }] }

/-! ### List lemmas used throughout -/

theorem find?_map_update {α : Type} {p q : α → Bool} {f : α → α} {l : List α} {a : α}
    (hfind : l.find? p = some a) (hq : q a = true)
    (hskip : ∀ x, p x = false → q x = false) (hpf : p (f a) = true) :
    (l.map (fun x => if q x then f x else x)).find? p = some (f a) := by
  induction l with
  | nil => simp at hfind
  | cons x xs ih =>
    by_cases hx : p x = true
    · rw [List.find?_cons_of_pos _ hx] at hfind
      injection hfind with h
      subst h
      simp only [List.map_cons, hq, if_true]
      exact List.find?_cons_of_pos _ hpf
    · have hx0 : p x = false := by
        cases h : p x
        · rfl
        · exact absurd h hx
      rw [List.find?_cons_of_neg _ (by simp [hx0])] at hfind
      have hqx0 : q x = false := hskip x hx0
      simp only [List.map_cons, hqx0, Bool.false_eq_true, if_false]
      rw [List.find?_cons_of_neg _ (by simp [hx0])]
      exact ih hfind

theorem find?_map_frame {α : Type} {p q : α → Bool} {f : α → α} {l : List α}
    (h : ∀ x, q x = true → p x = false ∧ p (f x) = false) :
    (l.map (fun x => if q x then f x else x)).find? p = l.find? p := by
  induction l with
  | nil => rfl
  | cons x xs ih =>
    by_cases hq : q x = true
    · obtain ⟨h1, h2⟩ := h x hq
      simp only [List.map_cons, hq, if_true]
      rw [List.find?_cons_of_neg _ (by simp [h2]), List.find?_cons_of_neg _ (by simp [h1])]
      exact ih
    · have hq0 : q x = false := by
        cases hqx : q x
        · rfl
        · exact absurd hqx hq
      simp only [List.map_cons, hq0, Bool.false_eq_true, if_false]
      cases hx : p x
      · rw [List.find?_cons_of_neg _ (by simp [hx]), List.find?_cons_of_neg _ (by simp [hx])]
        exact ih
      · rw [List.find?_cons_of_pos _ hx, List.find?_cons_of_pos _ hx]

theorem find?_append_single_neg {α : Type} {p : α → Bool} {l : List α} {a : α}
    (h : p a = false) : (l ++ [a]).find? p = l.find? p := by
  rw [List.find?_append]
  have hs : [a].find? p = none := by
    rw [List.find?_cons_of_neg _ (by simp [h])]
    rfl
  rw [hs, Option.or_none]

theorem find?_mem_unique {α : Type} {p : α → Bool} {l : List α} {r r' : α}
    (hu : l.Pairwise (fun a b => ¬(p a = true ∧ p b = true)))
    (hmem : r ∈ l) (hp : p r = true) (hfind : l.find? p = some r') : r = r' := by
  have hmem' := List.mem_of_find?_eq_some hfind
  have hp' := List.find?_some hfind
  by_contra hne
  have hsymm : Symmetric (fun a b : α => ¬(p a = true ∧ p b = true)) := by
    intro a b hab h2
    exact hab ⟨h2.2, h2.1⟩
  exact (List.Pairwise.forall hsymm hu hmem hmem' hne) ⟨hp, hp'⟩

theorem mem_dedupFirst_aux {α : Type} [BEq α] (l : List α) :
    ∀ (acc : List α) (x : α),
      x ∈ l.foldl (fun acc y => if acc.contains y then acc else acc ++ [y]) acc →
      x ∈ acc ∨ x ∈ l := by
  induction l with
  | nil =>
    intro acc x hx
    exact Or.inl hx
  | cons y ys ih =>
    intro acc x hx
    simp only [List.foldl_cons] at hx
    rcases ih _ x hx with h | h
    · by_cases hc : acc.contains y = true
      · rw [if_pos hc] at h
        exact Or.inl h
      · rw [if_neg hc] at h
        rcases List.mem_append.mp h with h1 | h1
        · exact Or.inl h1
        · simp only [List.mem_singleton] at h1
          subst h1
          exact Or.inr (List.mem_cons_self _ _)
    · exact Or.inr (List.mem_cons_of_mem _ h)

theorem mem_dedupFirst {α : Type} [BEq α] {l : List α} {x : α}
    (hx : x ∈ dedupFirst l) : x ∈ l := by
  rcases mem_dedupFirst_aux l [] x hx with h | h
  · simp at h
  · exact h

/-! ### Facts about the storage operations -/

theorem createFlagSubmissionMem_irrelevant (st : StorageState) (u c : Nat) (f : String)
    (b b' : Bool) (ip ua : Option String) (t : Int) :
    createFlagSubmissionMem st u c f b ip ua t = createFlagSubmissionMem st u c f b' ip ua t := rfl

theorem memUpdateRateLimit_users (st : StorageState) (u c a : Nat) (now : Int)
    (next : Option Int) : (memUpdateRateLimit st u c a now next).users = st.users := by
  unfold memUpdateRateLimit
  split <;> rfl

theorem memUpdateRateLimit_challenges (st : StorageState) (u c a : Nat) (now : Int)
    (next : Option Int) : (memUpdateRateLimit st u c a now next).challenges = st.challenges := by
  unfold memUpdateRateLimit
  split <;> rfl

theorem memUpdateRateLimit_solves (st : StorageState) (u c a : Nat) (now : Int)
    (next : Option Int) : (memUpdateRateLimit st u c a now next).solves = st.solves := by
  unfold memUpdateRateLimit
  split <;> rfl

theorem memUpdateRateLimit_flagSubmissions (st : StorageState) (u c a : Nat) (now : Int)
    (next : Option Int) :
    (memUpdateRateLimit st u c a now next).flagSubmissions = st.flagSubmissions := by
  unfold memUpdateRateLimit
  split <;> rfl

theorem updateUserScoreAndStreak_proj (st : StorageState) (u : Nat) (p now : Int) :
    (updateUserScoreAndStreak st u p now).challenges = st.challenges ∧
    (updateUserScoreAndStreak st u p now).solves = st.solves ∧
    (updateUserScoreAndStreak st u p now).rateLimits = st.rateLimits ∧
    (updateUserScoreAndStreak st u p now).flagSubmissions = st.flagSubmissions := by
  unfold updateUserScoreAndStreak setUser
  split <;> exact ⟨rfl, rfl, rfl, rfl⟩

theorem createSolveMem_rateLimits (st : StorageState) (u c : Nat) (now : Int) :
    (createSolveMem st u c now).1.rateLimits = st.rateLimits := by
  unfold createSolveMem setUser
  dsimp only
  split <;> rfl

theorem createSolveMem_challenges (st : StorageState) (u c : Nat) (now : Int) :
    (createSolveMem st u c now).1.challenges = st.challenges := by
  unfold createSolveMem setUser
  dsimp only
  split <;> rfl

theorem createSolveMem_flagSubmissions (st : StorageState) (u c : Nat) (now : Int) :
    (createSolveMem st u c now).1.flagSubmissions = st.flagSubmissions := by
  unfold createSolveMem setUser
  dsimp only
  split <;> rfl

theorem createSolveMem_solves (st : StorageState) (u c : Nat) (now : Int)
    (hns : getSolve st u c = none) :
    (createSolveMem st u c now).1.solves = st.solves ++
      [{ id := st.nextSolveId, userId := u, challengeId := c, solvedAt := now,
         solveTime := none, isFirstBlood := checkFirstBloodMem st c, hintsUsed := 0,
         pointsAwarded := none }] := by
  have hany : st.solves.any (fun t => t.userId == u && t.challengeId == c) = false := by
    rw [List.any_eq_false]
    intro x hx
    exact List.find?_eq_none.mp hns x hx
  unfold createSolveMem memSetSolve setUser
  simp only [hany, Bool.false_eq_true, if_false]
  split <;> rfl

/-- The two first-blood checks agree: a zero count is the same as no row. -/
theorem checkFirstBlood_eq_mem (st : StorageState) (c : Nat) :
    checkFirstBlood st c = checkFirstBloodMem st c := by
  unfold checkFirstBlood checkFirstBloodMem
  cases hany : st.solves.any (fun s => s.challengeId == c) with
  | false =>
    have hz : st.solves.countP (fun s => s.challengeId == c) = 0 :=
      List.countP_eq_zero.mpr (by simpa [List.any_eq_false] using hany)
    simp [hz]
  | true =>
    obtain ⟨s, hs, hp⟩ := List.any_eq_true.mp hany
    have hz : st.solves.countP (fun s => s.challengeId == c) ≠ 0 := by
      rw [Ne, List.countP_eq_zero]
      intro hall
      exact hall s hs hp
    simp [hz]

theorem getUser_setUser (st : StorageState) (i : Nat) (user u : User)
    (h : getUser st i = some user) (hid : u.id = user.id) :
    getUser (setUser st u) i = some u := by
  have h' : st.users.find? (fun v => v.id == i) = some user := h
  have hpu := List.find?_some h'
  have huid : user.id = i := by simpa using hpu
  unfold getUser setUser
  exact find?_map_update (q := fun v => v.id == u.id) (f := fun _ => u) h'
    (by simp [hid, huid]) (fun x hx => by rw [hid, huid]; exact hx) (by simp [hid, huid])

theorem getChallenge_bumpTotalSolves (st : StorageState) (cid : Nat) (ch : Challenge)
    (hch : getChallenge st cid = some ch) :
    getChallenge (bumpTotalSolves st cid) cid =
      some { ch with totalSolves := ch.totalSolves + 1 } := by
  have hch' : st.challenges.find? (fun c => c.id == cid) = some ch := hch
  have hp := List.find?_some hch'
  unfold getChallenge bumpTotalSolves
  exact find?_map_update (q := fun c => c.id == cid)
    (f := fun c => { c with totalSolves := c.totalSolves + 1 }) hch' hp (fun x hx => hx) hp

/-- A pair key mismatch makes the pair predicate false. -/
theorem keypred_eq_false_of_ne {uu cc u' c' : Nat} (hne : ¬(u' = uu ∧ c' = cc)) :
    ((uu == u' && cc == c') : Bool) = false := by
  cases h : ((uu == u' && cc == c') : Bool)
  · rfl
  · rw [Bool.and_eq_true, beq_iff_eq, beq_iff_eq] at h
    exact absurd ⟨h.1.symm, h.2.symm⟩ hne

theorem getRateLimit_memUpdateRateLimit_self (st : StorageState) (u c a : Nat)
    (now : Int) (next : Option Int) :
    getRateLimit (memUpdateRateLimit st u c a now next) u c =
      some { id := st.nextRateLimitId, userId := u, challengeId := c, attempts := a,
             lastAttempt := now, nextAllowedAt := next } := by
  cases hex : getRateLimit st u c with
  | some r0 =>
    have hex' : st.rateLimits.find? (fun r => r.userId == u && r.challengeId == c) = some r0 := hex
    simp only [memUpdateRateLimit, hex, Option.isSome_some, if_true]
    show (st.rateLimits.map _).find? _ = _
    have hq0 := List.find?_some hex'
    exact find?_map_update (q := fun r => r.userId == u && r.challengeId == c)
      (f := fun _ => { id := st.nextRateLimitId, userId := u, challengeId := c,
                       attempts := a, lastAttempt := now, nextAllowedAt := next }) hex'
      hq0 (fun x hx => hx) (by simp)
  | none =>
    have hex' : st.rateLimits.find? (fun r => r.userId == u && r.challengeId == c) = none := hex
    simp only [memUpdateRateLimit, hex, Option.isSome_none, Bool.false_eq_true, if_false]
    show (st.rateLimits ++ [_]).find? _ = _
    rw [List.find?_append, hex']
    rw [List.find?_cons_of_pos _ (by simp)]
    rfl

theorem getRateLimit_memUpdateRateLimit_other (st : StorageState) (u c a : Nat)
    (now : Int) (next : Option Int) (u' c' : Nat) (hne : ¬(u' = u ∧ c' = c)) :
    getRateLimit (memUpdateRateLimit st u c a now next) u' c' = getRateLimit st u' c' := by
  have hrl : ((u == u' && c == c') : Bool) = false := keypred_eq_false_of_ne hne
  cases hex : getRateLimit st u c with
  | some r0 =>
    simp only [memUpdateRateLimit, hex, Option.isSome_some, if_true]
    show (st.rateLimits.map _).find? _ = _
    refine find?_map_frame ?_
    intro x hx
    rw [Bool.and_eq_true, beq_iff_eq, beq_iff_eq] at hx
    refine ⟨?_, hrl⟩
    rw [hx.1, hx.2]
    exact hrl
  | none =>
    simp only [memUpdateRateLimit, hex, Option.isSome_none, Bool.false_eq_true, if_false]
    show (st.rateLimits ++ [_]).find? _ = _
    exact find?_append_single_neg hrl

/-- The invariant only loosens as time advances. -/
theorem submitInv_mono (st : StorageState) (t t' : Int) (h : submitInv st t)
    (htt : t ≤ t') : submitInv st t' := by
  refine ⟨h.1, h.2.1, ?_⟩
  intro s hs r hr h1 h2
  have hset := h.2.2 s hs r hr h1 h2
  unfold rateLimitSettled at hset ⊢
  cases hna : r.nextAllowedAt with
  | none => rfl
  | some na =>
    rw [hna] at hset
    simp only [decide_eq_true_eq] at hset
    simp only [decide_eq_true_eq]
    omega

/-! ### Case equations of the submit route -/

theorem submitFlag_rateLimited_eq (st : StorageState) (userId challengeId : Nat)
    (flag : String) (now : Int)
    (hcan : canSubmitFlag st userId challengeId now = false) :
    submitFlag st userId challengeId flag now = (st, .rateLimited) := by
  unfold submitFlag
  rw [hcan]
  rfl

theorem submitFlag_alreadySolved_eq (st : StorageState) (userId challengeId : Nat)
    (flag : String) (now : Int) (s : Solve)
    (hcan : canSubmitFlag st userId challengeId now = true)
    (hs : getSolve st userId challengeId = some s) :
    submitFlag st userId challengeId flag now = (st, .alreadySolved) := by
  unfold submitFlag
  rw [hcan, hs]
  rfl

theorem submitFlag_notFound_eq (st : StorageState) (userId challengeId : Nat)
    (flag : String) (now : Int)
    (hcan : canSubmitFlag st userId challengeId now = true)
    (hns : getSolve st userId challengeId = none)
    (hch : getChallenge st challengeId = none) :
    submitFlag st userId challengeId flag now = (st, .challengeNotFound) := by
  unfold submitFlag
  rw [hcan, hns, hch]
  rfl

theorem submitFlag_correct_eq (st : StorageState) (userId challengeId : Nat)
    (flag : String) (now : Int) (ch : Challenge)
    (hcan : canSubmitFlag st userId challengeId now = true)
    (hns : getSolve st userId challengeId = none)
    (hch : getChallenge st challengeId = some ch)
    (hright : flagMatches flag ch.flag = true) :
    submitFlag st userId challengeId flag now =
      ((createSolveMem (createFlagSubmissionMem st userId challengeId flag true none none now)
          userId challengeId now).1, .correct ch.points) := by
  unfold submitFlag
  rw [hcan, hns, hch]
  simp only [Bool.not_true, Bool.false_eq_true, if_false, Option.isSome_none, hright, if_true]

theorem submitFlag_wrong_eq (st : StorageState) (userId challengeId : Nat)
    (flag : String) (now : Int) (ch : Challenge)
    (hcan : canSubmitFlag st userId challengeId now = true)
    (hns : getSolve st userId challengeId = none)
    (hch : getChallenge st challengeId = some ch)
    (hwrong : flagMatches flag ch.flag = false) :
    submitFlag st userId challengeId flag now =
      (memUpdateRateLimit
        (createFlagSubmissionMem st userId challengeId flag false none none now)
        userId challengeId (failureAttempts st userId challengeId) now
        (some (now + (progressiveDelay (failureAttempts st userId challengeId) : Int) * 1000)),
       .incorrect (progressiveDelay (failureAttempts st userId challengeId))) := by
  unfold submitFlag
  rw [hcan, hns, hch]
  simp only [Bool.not_true, Bool.false_eq_true, if_false, Option.isSome_none, hwrong]
  rfl

theorem getUser_bumpTotalSolves (st : StorageState) (c i : Nat) :
    getUser (bumpTotalSolves st c) i = getUser st i := rfl

theorem getUser_createFlagSubmissionMem (st : StorageState) (u c : Nat) (f : String)
    (b : Bool) (ip ua : Option String) (t : Int) (i : Nat) :
    getUser (createFlagSubmissionMem st u c f b ip ua t) i = getUser st i := rfl

theorem getRateLimit_createFlagSubmissionMem (st : StorageState) (u c : Nat) (f : String)
    (b : Bool) (ip ua : Option String) (t : Int) (u' c' : Nat) :
    getRateLimit (createFlagSubmissionMem st u c f b ip ua t) u' c' = getRateLimit st u' c' := rfl

/-- `updateUserScoreAndStreak` in closed form when the user exists. -/
theorem updateUserScoreAndStreak_eq (st : StorageState) (u : Nat) (p now : Int) (user : User)
    (hu : getUser st u = some user) :
    updateUserScoreAndStreak st u p now =
      setUser st
        { user with
          score := user.score + p,
          solveStreak :=
            (match user.lastSolveAt with
             | some last =>
               if Int.fdiv (now - last) msPerDay = 1 then user.solveStreak + 1
               else if Int.fdiv (now - last) msPerDay > 1 then 1
               else user.solveStreak
             | none => 1),
          lastSolveAt := some now } := by
  unfold updateUserScoreAndStreak
  rw [hu]

/-- `MemStorage.createSolve` in closed form when challenge and user exist. -/
theorem createSolveMem_eq (st : StorageState) (u c : Nat) (now : Int) (ch : Challenge)
    (user : User) (hch : getChallenge st c = some ch) (hu : getUser st u = some user) :
    (createSolveMem st u c now).1 =
      setUser
        { st with
          solves := memSetSolve st.solves
            { id := st.nextSolveId, userId := u, challengeId := c, solvedAt := now,
              solveTime := none, isFirstBlood := checkFirstBloodMem st c, hintsUsed := 0,
              pointsAwarded := none },
          nextSolveId := st.nextSolveId + 1 }
        { user with score := user.score +
            (ch.points + if checkFirstBloodMem st c then 50 else 0) } := by
  unfold createSolveMem
  dsimp only
  split
  next challenge user' hchm hum =>
    have hchm' : getChallenge st c = some challenge := hchm
    have hum' : getUser st u = some user' := hum
    have hc2 : some ch = some challenge := Eq.trans hch.symm hchm'
    have hu2 : some user = some user' := Eq.trans hu.symm hum'
    injection hc2 with hc2
    injection hu2 with hu2
    subst hc2
    subst hu2
    rfl
  next x y hno =>
    exact (hno ch user hch hu).elim

/-- C1: at most one solve of a challenge may carry first blood, even when two
users' correct submissions race; the check-then-insert of
`DatabaseStorage.createSolve` must behave as if serialized per challenge.
The code has no such serialization: sequential execution of the two
`createSolve` calls (first conjunct: the stepped model agrees with the atomic
function; second: it yields exactly one first blood), but the interleaving in
which both calls pass `checkFirstBlood` before either inserts leaves TWO
solves of challenge 1 with `isFirstBlood = true`. -/
theorem first_blood_race_not_serialized :
    (runSchedule baseSt raceA raceB
        [false, false, false, false, true, true, true, true]).1 =
      (createSolveDb (createSolveDb baseSt 1 1 0).1 2 1 0).1 ∧
    ((runSchedule baseSt raceA raceB
        [false, false, false, false, true, true, true, true]).1.solves.countP
      (fun s => s.challengeId == 1 && s.isFirstBlood)) = 1 ∧
    ((runSchedule baseSt raceA raceB
        [false, true, false, true, false, true, false, true]).1.solves.countP
      (fun s => s.challengeId == 1 && s.isFirstBlood)) = 2 :=
  ⟨by decide, by decide, by decide⟩

/-- C5: a submission is correct iff the submitted string and the stored flag
are character-for-character equal after trimming leading and trailing
whitespace from both (case-sensitive); `jsTrim` removes only whitespace and
only at the two ends; a padded flag matches and a lower-cased flag does not. -/
theorem flag_matching_trim_exact :
    (∀ s : String, ∃ pre post : List Char,
        s.data = pre ++ (jsTrim s).data ++ post ∧
        (∀ ch ∈ pre, isJsWhitespace ch = true) ∧
        (∀ ch ∈ post, isJsWhitespace ch = true)) ∧
    (∀ submitted storedFlag : String,
        flagMatches submitted storedFlag = true ↔
          (jsTrim submitted).data = (jsTrim storedFlag).data) ∧
    flagMatches " FLAG\x7bx\x7d " "FLAG\x7bx\x7d" = true ∧
    flagMatches "flag\x7bX\x7d" "FLAG\x7bX\x7d" = false := by
  have key : ∀ l : List Char,
      (l.reverse.dropWhile isJsWhitespace).reverse ++
        (l.reverse.takeWhile isJsWhitespace).reverse = l := by
    intro l
    rw [← List.reverse_append, List.takeWhile_append_dropWhile, List.reverse_reverse]
  refine ⟨?_, ?_, by decide, by decide⟩
  · intro s
    refine ⟨s.data.takeWhile isJsWhitespace,
      ((s.data.dropWhile isJsWhitespace).reverse.takeWhile isJsWhitespace).reverse,
      ?_, ?_, ?_⟩
    · conv_lhs => rw [← List.takeWhile_append_dropWhile isJsWhitespace s.data]
      rw [List.append_assoc]
      congr 1
      exact (key (s.data.dropWhile isJsWhitespace)).symm
    · intro ch2 hch2
      exact List.mem_takeWhile_imp hch2
    · intro ch2 hch2
      rw [List.mem_reverse] at hch2
      exact List.mem_takeWhile_imp hch2
  · intro a b
    unfold flagMatches
    rw [beq_iff_eq]
    exact String.ext_iff

/-- C10: `getChallengeAnalytics` reports `totalAttempts` as the number of
submission-log rows of the challenge, `uniqueSolvers` as the number of its
solve rows, and a difficulty rating of
`min(10, floor((attempts / max(1, solvers)) * 2))` when there is at least one
attempt and 5 otherwise. -/
theorem analytics_difficulty_formula (st : StorageState) (challengeId : Nat) :
    (getChallengeAnalytics st challengeId).totalAttempts =
      (st.flagSubmissions.filter (fun s => s.challengeId == challengeId)).length ∧
    (getChallengeAnalytics st challengeId).uniqueSolvers =
      (st.solves.filter (fun s => s.challengeId == challengeId)).length ∧
    (getChallengeAnalytics st challengeId).difficultyRating =
      (if 0 < (st.flagSubmissions.filter (fun s => s.challengeId == challengeId)).length then
        min 10
          ⌊(((st.flagSubmissions.filter (fun s => s.challengeId == challengeId)).length : ℚ) /
              (max 1 (((st.solves.filter (fun s => s.challengeId == challengeId)).length : ℚ)))) * 2⌋
      else 5) := by
  unfold getChallengeAnalytics
  simp only [List.countP_eq_length_filter]
  exact ⟨trivial, trivial, trivial⟩

/-- C6 counterexample: with the `MemStorage` wiring the routes actually use, a
correct first submission on challenge 1 succeeds (first conjunct) yet the
challenge's `totalSolves` stays 0 (second) instead of becoming previous + 1
(third), so the increment does not happen in every storage variant. -/
theorem memStorage_totalSolves_not_incremented :
    (submitFlag baseSt 1 1 "CTF\x7babc\x7d" 0).2 = SubmitResult.correct 100 ∧
    (getChallenge (submitFlag baseSt 1 1 "CTF\x7babc\x7d" 0).1 1).map Challenge.totalSolves =
      some 0 ∧
    ¬((getChallenge (submitFlag baseSt 1 1 "CTF\x7babc\x7d" 0).1 1).map Challenge.totalSolves =
      some 1) :=
  ⟨by decide, by decide, by decide⟩

/-- C6 (amended): recording a solve increments the challenge's `totalSolves`
by exactly one in the `DatabaseStorage` variant; the `MemStorage` variant
leaves the challenges table entirely unchanged, so the increment holds only in
the database variant, not in every variant. -/
theorem createSolve_totalSolves_by_variant (st : StorageState) (userId challengeId : Nat)
    (now : Int) (ch : Challenge) (hch : getChallenge st challengeId = some ch) :
    getChallenge (createSolveDb st userId challengeId now).1 challengeId =
      some { ch with totalSolves := ch.totalSolves + 1 } ∧
    (createSolveMem st userId challengeId now).1.challenges = st.challenges := by
  constructor
  · have hc2 : (createSolveDb st userId challengeId now).1.challenges =
        (bumpTotalSolves st challengeId).challenges := by
      unfold createSolveDb bumpTotalSolves
      dsimp only
      rw [(updateUserScoreAndStreak_proj _ _ _ _).1]
    have hg : getChallenge (createSolveDb st userId challengeId now).1 challengeId =
        getChallenge (bumpTotalSolves st challengeId) challengeId := by
      unfold getChallenge
      rw [hc2]
    rw [hg]
    exact getChallenge_bumpTotalSolves st challengeId ch hch
  · exact createSolveMem_challenges st userId challengeId now

/-- C6 amended witness at the fresh base state. -/
theorem createSolve_totalSolves_by_variant_witness :
    getChallenge baseSt 1 = some demoChallenge ∧
    (getChallenge (createSolveDb baseSt 1 1 0).1 1 =
        some { demoChallenge with totalSolves := demoChallenge.totalSolves + 1 } ∧
      (createSolveMem baseSt 1 1 0).1.challenges = baseSt.challenges) :=
  ⟨by decide, createSolve_totalSolves_by_variant baseSt 1 1 0 demoChallenge (by decide)⟩

/-- Score observed through the tail of `DatabaseStorage.createSolve` (streak
update followed by the solve-counter bump). -/
theorem getUser_score_after_dbtail (st2 : StorageState) (userId challengeId : Nat)
    (p now : Int) (user : User) (hu : getUser st2 userId = some user) :
    ∃ u2, getUser (bumpTotalSolves (updateUserScoreAndStreak st2 userId p now) challengeId)
        userId = some u2 ∧
      u2.score = user.score + p := by
  rw [getUser_bumpTotalSolves, updateUserScoreAndStreak_eq st2 userId p now user hu]
  exact ⟨_, getUser_setUser _ _ user _ hu rfl, rfl⟩

/-- C7: the two `createSolve` implementations diverge on first-blood scoring:
`MemStorage.createSolve` adds the challenge points plus a flat 50-point
first-blood bonus to the solver's score, while `DatabaseStorage.createSolve`
adds exactly the base points whether or not the solve is first blood (first
blood is only recorded as a flag there); with the bonus conditional written
out, both award exactly the base points on non-first-blood solves; and the two
variants' first-blood checks agree. -/
theorem first_blood_bonus_divergence (st : StorageState) (userId challengeId : Nat)
    (now : Int) (user : User) (ch : Challenge)
    (hu : getUser st userId = some user) (hch : getChallenge st challengeId = some ch) :
    (∃ u1, getUser (createSolveMem st userId challengeId now).1 userId = some u1 ∧
        u1.score = user.score +
          (ch.points + (if checkFirstBloodMem st challengeId then (50 : Int) else 0))) ∧
    (∃ u2, getUser (createSolveDb st userId challengeId now).1 userId = some u2 ∧
        u2.score = user.score + ch.points) ∧
    (∀ st' c', checkFirstBlood st' c' = checkFirstBloodMem st' c') := by
  refine ⟨?_, ?_, checkFirstBlood_eq_mem⟩
  · rw [createSolveMem_eq st userId challengeId now ch user hch hu]
    exact ⟨_, getUser_setUser _ _ user _ hu rfl, rfl⟩
  · unfold createSolveDb
    dsimp only
    rw [hch]
    dsimp only
    exact getUser_score_after_dbtail _ userId challengeId ch.points now user hu

/-- C7 witness at the fresh base state (a first-blood situation). -/
theorem first_blood_bonus_divergence_witness :
    getUser baseSt 1 = some aliceUser ∧ getChallenge baseSt 1 = some demoChallenge ∧
    ((∃ u1, getUser (createSolveMem baseSt 1 1 0).1 1 = some u1 ∧
        u1.score = aliceUser.score +
          (demoChallenge.points + (if checkFirstBloodMem baseSt 1 then (50 : Int) else 0))) ∧
     (∃ u2, getUser (createSolveDb baseSt 1 1 0).1 1 = some u2 ∧
        u2.score = aliceUser.score + demoChallenge.points) ∧
     (∀ st' c', checkFirstBlood st' c' = checkFirstBloodMem st' c')) :=
  ⟨by decide, by decide,
   first_blood_bonus_divergence baseSt 1 1 0 aliceUser demoChallenge (by decide) (by decide)⟩

/-- C4: recording a solve at time `now` updates the user exactly as the streak
rule dictates: with no prior `lastSolveAt` the streak becomes 1; with
`d = floor((now - lastSolveAt) / 1 day)`, `d = 1` increments the streak,
`d > 1` resets it to 1, and otherwise (in particular `d = 0`, same day) it is
unchanged; in every branch `lastSolveAt` becomes `now` and the score grows by
the awarded points. -/
theorem streak_update_rule (st : StorageState) (userId : Nat) (points now : Int)
    (user : User) (hu : getUser st userId = some user) :
    ∃ u1, getUser (updateUserScoreAndStreak st userId points now) userId = some u1 ∧
      u1.score = user.score + points ∧
      u1.lastSolveAt = some now ∧
      u1.solveStreak =
        (match user.lastSolveAt with
         | some last =>
           if Int.fdiv (now - last) msPerDay = 1 then user.solveStreak + 1
           else if Int.fdiv (now - last) msPerDay > 1 then 1
           else user.solveStreak
         | none => 1) := by
  rw [updateUserScoreAndStreak_eq st userId points now user hu]
  exact ⟨_, getUser_setUser _ _ user _ hu rfl, rfl, rfl, rfl⟩

/-- C4 witness: a user with streak 2 who solved at time 0 and solves again
exactly one day later. -/
theorem streak_update_rule_witness :
    getUser streakSt 3 = some streakUser ∧
    (∃ u1, getUser (updateUserScoreAndStreak streakSt 3 60 86400000) 3 = some u1 ∧
      u1.score = streakUser.score + 60 ∧
      u1.lastSolveAt = some 86400000 ∧
      u1.solveStreak =
        (match streakUser.lastSolveAt with
         | some last =>
           if Int.fdiv (86400000 - last) msPerDay = 1 then streakUser.solveStreak + 1
           else if Int.fdiv (86400000 - last) msPerDay > 1 then 1
           else streakUser.solveStreak
         | none => 1)) :=
  ⟨by decide, streak_update_rule streakSt 3 60 86400000 streakUser (by decide)⟩

/-- C3: a wrong submission on a pair whose stored wrong-attempt count is
`n - 1` (no record meaning 0) stores `attempts = n` with
`nextAllowedAt = now + delay * 1000`, where the delay is 5 seconds for
`n = 1`, 10 for `n = 2`, and 15 for every `n ≥ 3`, never exceeding 15; the
second route variant's capped-minimum formula computes the same delay for
every positive count; and a concrete run of four wrong submissions records
attempts 1, 2, 3, 4 with delays 5, 10, 15, 15. -/
theorem wrong_flag_rate_limit_progression (st : StorageState) (userId challengeId n : Nat)
    (flag : String) (now : Int) (ch : Challenge)
    (hprior : (getRateLimit st userId challengeId = none ∧ n = 1) ∨
        (∃ r, getRateLimit st userId challengeId = some r ∧ r.attempts + 1 = n))
    (hcan : canSubmitFlag st userId challengeId now = true)
    (hns : getSolve st userId challengeId = none)
    (hch : getChallenge st challengeId = some ch)
    (hwrong : flagMatches flag ch.flag = false) :
    (∃ r1, getRateLimit (submitFlag st userId challengeId flag now).1 userId challengeId =
        some r1 ∧
      r1.attempts = n ∧
      r1.nextAllowedAt = some (now + (progressiveDelay n : Int) * 1000)) ∧
    (submitFlag st userId challengeId flag now).2 = SubmitResult.incorrect (progressiveDelay n) ∧
    progressiveDelay n = (if n = 1 then 5 else if n = 2 then 10 else 15) ∧
    progressiveDelay n ≤ 15 ∧
    (∀ m : Nat, 1 ≤ m → progressiveDelayMin (m : Int) = (progressiveDelay m : Int)) ∧
    ((submitFlag baseSt 1 1 "nope" 0).2 = SubmitResult.incorrect 5 ∧
     (submitFlag wrongSt1 1 1 "nope" 10000).2 = SubmitResult.incorrect 10 ∧
     (submitFlag wrongSt2 1 1 "nope" 30000).2 = SubmitResult.incorrect 15 ∧
     (submitFlag wrongSt3 1 1 "nope" 60000).2 = SubmitResult.incorrect 15 ∧
     (getRateLimit wrongSt1 1 1).map RateLimit.attempts = some 1 ∧
     (getRateLimit wrongSt2 1 1).map RateLimit.attempts = some 2 ∧
     (getRateLimit wrongSt3 1 1).map RateLimit.attempts = some 3 ∧
     (getRateLimit (submitFlag wrongSt3 1 1 "nope" 60000).1 1 1).map RateLimit.attempts =
       some 4) := by
  have hfa : failureAttempts st userId challengeId = n := by
    unfold failureAttempts
    rcases hprior with ⟨hn, h1⟩ | ⟨r, hr, ha⟩
    · rw [hn]
      dsimp only
      omega
    · rw [hr]
      dsimp only
      omega
  rw [submitFlag_wrong_eq st userId challengeId flag now ch hcan hns hch hwrong, hfa]
  refine ⟨?_, rfl, ?_, ?_, ?_, ?_⟩
  · rw [getRateLimit_memUpdateRateLimit_self]
    exact ⟨_, rfl, rfl, rfl⟩
  · unfold progressiveDelay
    dsimp only
    split_ifs <;> omega
  · unfold progressiveDelay
    dsimp only
    split_ifs <;> omega
  · intro m hm
    unfold progressiveDelayMin progressiveDelay
    dsimp only
    split_ifs <;> push_cast <;> omega
  · exact ⟨by decide, by decide, by decide, by decide, by decide, by decide, by decide,
      by decide⟩

/-- C3 witness: the first wrong submission on a fresh pair. -/
theorem wrong_flag_rate_limit_progression_witness :
    ((getRateLimit baseSt 1 1 = none ∧ 1 = 1) ∨
      (∃ r, getRateLimit baseSt 1 1 = some r ∧ r.attempts + 1 = 1)) ∧
    canSubmitFlag baseSt 1 1 0 = true ∧
    getSolve baseSt 1 1 = none ∧
    getChallenge baseSt 1 = some demoChallenge ∧
    flagMatches "nope" demoChallenge.flag = false ∧
    ((∃ r1, getRateLimit (submitFlag baseSt 1 1 "nope" 0).1 1 1 = some r1 ∧
        r1.attempts = 1 ∧
        r1.nextAllowedAt = some ((0 : Int) + (progressiveDelay 1 : Int) * 1000)) ∧
     (submitFlag baseSt 1 1 "nope" 0).2 = SubmitResult.incorrect (progressiveDelay 1) ∧
     progressiveDelay 1 = (if 1 = 1 then 5 else if 1 = 2 then 10 else 15) ∧
     progressiveDelay 1 ≤ 15 ∧
     (∀ m : Nat, 1 ≤ m → progressiveDelayMin (m : Int) = (progressiveDelay m : Int)) ∧
     ((submitFlag baseSt 1 1 "nope" 0).2 = SubmitResult.incorrect 5 ∧
      (submitFlag wrongSt1 1 1 "nope" 10000).2 = SubmitResult.incorrect 10 ∧
      (submitFlag wrongSt2 1 1 "nope" 30000).2 = SubmitResult.incorrect 15 ∧
      (submitFlag wrongSt3 1 1 "nope" 60000).2 = SubmitResult.incorrect 15 ∧
      (getRateLimit wrongSt1 1 1).map RateLimit.attempts = some 1 ∧
      (getRateLimit wrongSt2 1 1).map RateLimit.attempts = some 2 ∧
      (getRateLimit wrongSt3 1 1).map RateLimit.attempts = some 3 ∧
      (getRateLimit (submitFlag wrongSt3 1 1 "nope" 60000).1 1 1).map RateLimit.attempts =
        some 4)) :=
  ⟨Or.inl ⟨by decide, rfl⟩, by decide, by decide, by decide, by decide,
   wrong_flag_rate_limit_progression baseSt 1 1 1 "nope" 0 demoChallenge
     (Or.inl ⟨by decide, rfl⟩) (by decide) (by decide) (by decide) (by decide)⟩

theorem rateLimitSettled_mono (r : RateLimit) (t t' : Int)
    (h : rateLimitSettled r t = true) (htt : t ≤ t') : rateLimitSettled r t' = true := by
  unfold rateLimitSettled at h ⊢
  cases hna : r.nextAllowedAt with
  | none => rfl
  | some na =>
    rw [hna] at h
    dsimp only at h ⊢
    simp only [decide_eq_true_eq] at h ⊢
    omega

/-- `canSubmitFlag` holds when every rate-limit record of the pair is
settled. -/
theorem canSubmit_of_settled (st : StorageState) (u c : Nat) (now : Int)
    (h : ∀ r ∈ st.rateLimits, r.userId = u → r.challengeId = c →
      rateLimitSettled r now = true) :
    canSubmitFlag st u c now = true := by
  unfold canSubmitFlag
  cases hrl : getRateLimit st u c with
  | none => rfl
  | some r =>
    have hr' : st.rateLimits.find? (fun x => x.userId == u && x.challengeId == c) = some r := hrl
    have hrmem := List.mem_of_find?_eq_some hr'
    have hrkey := List.find?_some hr'
    rw [Bool.and_eq_true, beq_iff_eq, beq_iff_eq] at hrkey
    have hset := h r hrmem hrkey.1 hrkey.2
    unfold rateLimitSettled at hset
    dsimp only
    cases hna : r.nextAllowedAt with
    | none => rfl
    | some na =>
      rw [hna] at hset
      dsimp only at hset
      simp only [decide_eq_true_eq] at hset
      simp only [ge_iff_le, decide_eq_true_eq]
      omega

/-- Conversely, when the rate-limit keys are unique, `canSubmitFlag` forces
every record of the pair to be settled. -/
theorem settled_of_canSubmit (st : StorageState) (u c : Nat) (now : Int)
    (huniq : rateLimitsKeyUnique st.rateLimits)
    (hcan : canSubmitFlag st u c now = true)
    (r : RateLimit) (hr : r ∈ st.rateLimits) (h1 : r.userId = u) (h2 : r.challengeId = c) :
    rateLimitSettled r now = true := by
  unfold canSubmitFlag at hcan
  cases hrl : getRateLimit st u c with
  | none =>
    have hnot := List.find?_eq_none.mp hrl r hr
    exact absurd (by simp [h1, h2]) hnot
  | some r0 =>
    have hrl' : st.rateLimits.find? (fun x => x.userId == u && x.challengeId == c) = some r0 := hrl
    have hpair : st.rateLimits.Pairwise
        (fun a b => ¬((a.userId == u && a.challengeId == c) = true ∧
                      (b.userId == u && b.challengeId == c) = true)) := by
      refine huniq.imp ?_
      intro a b hab hcon
      obtain ⟨ha, hb⟩ := hcon
      rw [Bool.and_eq_true, beq_iff_eq, beq_iff_eq] at ha hb
      exact hab ⟨ha.1.trans hb.1.symm, ha.2.trans hb.2.symm⟩
    have hreq : r = r0 := find?_mem_unique hpair hr (by simp [h1, h2]) hrl'
    subst hreq
    rw [hrl] at hcan
    dsimp only at hcan
    unfold rateLimitSettled
    cases hna : r.nextAllowedAt with
    | none => rfl
    | some na =>
      rw [hna] at hcan
      dsimp only at hcan
      simp only [ge_iff_le, decide_eq_true_eq] at hcan
      dsimp only
      simp only [decide_eq_true_eq]
      exact hcan

/-- Membership in the rate-limit table after a `MemStorage` upsert: a row is
either an untouched old row or carries the upserted pair key. -/
theorem mem_memUpdateRateLimit (st : StorageState) (u c a : Nat) (now : Int)
    (next : Option Int) (r : RateLimit)
    (hr : r ∈ (memUpdateRateLimit st u c a now next).rateLimits) :
    r ∈ st.rateLimits ∨ (r.userId = u ∧ r.challengeId = c) := by
  unfold memUpdateRateLimit at hr
  dsimp only at hr
  split at hr
  · simp only [List.mem_map] at hr
    obtain ⟨x, hx, hfx⟩ := hr
    by_cases hq : (x.userId == u && x.challengeId == c) = true
    · rw [if_pos hq] at hfx
      subst hfx
      exact Or.inr ⟨rfl, rfl⟩
    · rw [if_neg hq] at hfx
      subst hfx
      exact Or.inl hx
  · rcases List.mem_append.mp hr with h | h
    · exact Or.inl h
    · simp only [List.mem_singleton] at h
      subst h
      exact Or.inr ⟨rfl, rfl⟩

/-- A `MemStorage` rate-limit upsert preserves key uniqueness of the table. -/
theorem rateLimitsKeyUnique_memUpdateRateLimit (st : StorageState) (u c a : Nat)
    (now : Int) (next : Option Int) (h : rateLimitsKeyUnique st.rateLimits) :
    rateLimitsKeyUnique (memUpdateRateLimit st u c a now next).rateLimits := by
  unfold rateLimitsKeyUnique at h ⊢
  unfold memUpdateRateLimit
  dsimp only
  split
  next hex =>
    dsimp only
    rw [List.pairwise_map]
    refine h.imp ?_
    intro a1 b1 hab
    have key : ∀ x : RateLimit,
        ((if x.userId == u && x.challengeId == c then
            ({ id := st.nextRateLimitId, userId := u, challengeId := c, attempts := a,
               lastAttempt := now, nextAllowedAt := next } : RateLimit)
          else x).userId = x.userId ∧
         (if x.userId == u && x.challengeId == c then
            ({ id := st.nextRateLimitId, userId := u, challengeId := c, attempts := a,
               lastAttempt := now, nextAllowedAt := next } : RateLimit)
          else x).challengeId = x.challengeId) := by
      intro x
      by_cases hq : (x.userId == u && x.challengeId == c) = true
      · have hq' := hq
        rw [Bool.and_eq_true, beq_iff_eq, beq_iff_eq] at hq'
        rw [if_pos hq]
        exact ⟨hq'.1.symm, hq'.2.symm⟩
      · rw [if_neg hq]
        exact ⟨rfl, rfl⟩
    rw [(key a1).1, (key a1).2, (key b1).1, (key b1).2]
    exact hab
  next hex =>
    dsimp only
    refine List.pairwise_append.mpr ⟨h, List.pairwise_singleton _ _, ?_⟩
    intro x hx b1 hb1
    simp only [List.mem_singleton] at hb1
    subst hb1
    intro hcontra
    have hnone : getRateLimit st u c = none := by
      cases hg : getRateLimit st u c with
      | none => rfl
      | some r1 =>
        rw [hg] at hex
        simp at hex
    have hnot := List.find?_eq_none.mp hnone x hx
    apply hnot
    dsimp only at hcontra
    simp [hcontra.1, hcontra.2]

/-- C2: at most one solve row ever exists per (user, challenge) pair.  The
invariant `submitInv` (key uniqueness plus settledness of solved pairs'
rate-limit records) is preserved by every submission processed at any
`now ≥ t`, and whenever a solve already exists the submission is rejected
with the already-solved error, leaving the state (hence scores and the solves
table) completely unchanged — a duplicate correct submission can neither add
a second solve row nor award points twice. -/
theorem submit_at_most_one_solve (st : StorageState) (t : Int) (userId challengeId : Nat)
    (flag : String) (now : Int) (hinv : submitInv st t) (hts : t ≤ now) :
    submitInv (submitFlag st userId challengeId flag now).1 now ∧
    (∀ s0, getSolve st userId challengeId = some s0 →
      submitFlag st userId challengeId flag now = (st, SubmitResult.alreadySolved)) := by
  have hsolved : ∀ s0, getSolve st userId challengeId = some s0 →
      submitFlag st userId challengeId flag now = (st, SubmitResult.alreadySolved) := by
    intro s0 hs0
    have hs0' : st.solves.find?
        (fun s => s.userId == userId && s.challengeId == challengeId) = some s0 := hs0
    have hmem := List.mem_of_find?_eq_some hs0'
    have hkey := List.find?_some hs0'
    rw [Bool.and_eq_true, beq_iff_eq, beq_iff_eq] at hkey
    have hcan : canSubmitFlag st userId challengeId now = true := by
      apply canSubmit_of_settled
      intro r hr h1 h2
      exact rateLimitSettled_mono _ _ _
        (hinv.2.2 s0 hmem r hr (h1.trans hkey.1.symm) (h2.trans hkey.2.symm)) hts
    exact submitFlag_alreadySolved_eq st userId challengeId flag now s0 hcan hs0
  refine ⟨?_, hsolved⟩
  cases hcan : canSubmitFlag st userId challengeId now with
  | false =>
    rw [submitFlag_rateLimited_eq st userId challengeId flag now hcan]
    exact submitInv_mono st t now hinv hts
  | true =>
    cases hsol : getSolve st userId challengeId with
    | some s0 =>
      rw [hsolved s0 hsol]
      exact submitInv_mono st t now hinv hts
    | none =>
      cases hch : getChallenge st challengeId with
      | none =>
        rw [submitFlag_notFound_eq st userId challengeId flag now hcan hsol hch]
        exact submitInv_mono st t now hinv hts
      | some ch =>
        cases hflag : flagMatches flag ch.flag with
        | true =>
          rw [submitFlag_correct_eq st userId challengeId flag now ch hcan hsol hch hflag]
          dsimp only
          have hsolves := createSolveMem_solves
            (createFlagSubmissionMem st userId challengeId flag true none none now)
            userId challengeId now hsol
          have hrls := createSolveMem_rateLimits
            (createFlagSubmissionMem st userId challengeId flag true none none now)
            userId challengeId now
          refine ⟨?_, ?_, ?_⟩
          · unfold solvesKeyUnique
            rw [hsolves]
            refine List.pairwise_append.mpr ⟨hinv.1, List.pairwise_singleton _ _, ?_⟩
            intro a1 ha b1 hb
            simp only [List.mem_singleton] at hb
            subst hb
            dsimp only
            intro hcon
            have hnot := List.find?_eq_none.mp hsol a1 ha
            apply hnot
            simp [hcon.1, hcon.2]
          · unfold rateLimitsKeyUnique
            rw [hrls]
            exact hinv.2.1
          · intro s hs r hr h1 h2
            rw [hsolves] at hs
            rw [hrls] at hr
            rcases List.mem_append.mp hs with hs' | hs'
            · exact rateLimitSettled_mono _ _ _ (hinv.2.2 s hs' r hr h1 h2) hts
            · simp only [List.mem_singleton] at hs'
              subst hs'
              exact settled_of_canSubmit st userId challengeId now hinv.2.1 hcan r hr h1 h2
        | false =>
          rw [submitFlag_wrong_eq st userId challengeId flag now ch hcan hsol hch hflag]
          dsimp only
          refine ⟨?_, ?_, ?_⟩
          · unfold solvesKeyUnique
            rw [memUpdateRateLimit_solves]
            exact hinv.1
          · exact rateLimitsKeyUnique_memUpdateRateLimit _ _ _ _ _ _ hinv.2.1
          · intro s hs r hr h1 h2
            rw [memUpdateRateLimit_solves] at hs
            rcases mem_memUpdateRateLimit _ _ _ _ _ _ r hr with hold | hk
            · exact rateLimitSettled_mono _ _ _ (hinv.2.2 s hs r hold h1 h2) hts
            · exfalso
              have hnot := List.find?_eq_none.mp hsol s hs
              apply hnot
              have hsu : s.userId = userId := h1.symm.trans hk.1
              have hsc : s.challengeId = challengeId := h2.symm.trans hk.2
              simp [hsu, hsc]

/-- C2 witness: a state where Alice has solved challenge 1 and submits
again. -/
theorem submit_at_most_one_solve_witness :
    submitInv solvedSt 100 ∧ (100 : Int) ≤ 200 ∧
    (submitInv (submitFlag solvedSt 1 1 "CTF\x7babc\x7d" 200).1 200 ∧
     (∀ s0, getSolve solvedSt 1 1 = some s0 →
       submitFlag solvedSt 1 1 "CTF\x7babc\x7d" 200 = (solvedSt, SubmitResult.alreadySolved))) :=
  ⟨by decide, by decide,
   submit_at_most_one_solve solvedSt 100 1 1 "CTF\x7babc\x7d" 200 (by decide) (by decide)⟩

/-- C8: processing a wrong-flag submission touches only the forensic log
(exactly one row appended, marked incorrect) and the rate-limit record of the
submitting pair: the users table (so score and streak), the solves table, and
the challenges table (so `totalSolves` and the stored flag) are unchanged,
every other pair's rate-limit record is untouched, and the result is the
incorrect outcome.  The last conjunct states the same frame for
`DatabaseStorage.createFlagSubmission`: it only appends its one log row. -/
theorem wrong_flag_frame (st : StorageState) (userId challengeId : Nat)
    (flag : String) (now : Int) (ch : Challenge)
    (hcan : canSubmitFlag st userId challengeId now = true)
    (hns : getSolve st userId challengeId = none)
    (hch : getChallenge st challengeId = some ch)
    (hwrong : flagMatches flag ch.flag = false) :
    (submitFlag st userId challengeId flag now).1.users = st.users ∧
    (submitFlag st userId challengeId flag now).1.challenges = st.challenges ∧
    (submitFlag st userId challengeId flag now).1.solves = st.solves ∧
    (submitFlag st userId challengeId flag now).1.flagSubmissions =
      st.flagSubmissions ++
        [{ id := st.nextSubmissionId, userId := userId, challengeId := challengeId,
           submittedFlag := flag, isCorrect := false, ipAddress := none,
           userAgent := none, submittedAt := now }] ∧
    (∀ u' c', ¬(u' = userId ∧ c' = challengeId) →
      getRateLimit (submitFlag st userId challengeId flag now).1 u' c' =
        getRateLimit st u' c') ∧
    (∃ d, (submitFlag st userId challengeId flag now).2 = SubmitResult.incorrect d) ∧
    (∀ st2 : StorageState, ∀ u2 c2 : Nat, ∀ f2 : String, ∀ b2 : Bool,
      ∀ ip2 ua2 : Option String, ∀ t2 : Int,
      (createFlagSubmissionDb st2 u2 c2 f2 b2 ip2 ua2 t2).users = st2.users ∧
      (createFlagSubmissionDb st2 u2 c2 f2 b2 ip2 ua2 t2).challenges = st2.challenges ∧
      (createFlagSubmissionDb st2 u2 c2 f2 b2 ip2 ua2 t2).solves = st2.solves ∧
      (createFlagSubmissionDb st2 u2 c2 f2 b2 ip2 ua2 t2).rateLimits = st2.rateLimits ∧
      (createFlagSubmissionDb st2 u2 c2 f2 b2 ip2 ua2 t2).flagSubmissions =
        st2.flagSubmissions ++
          [{ id := st2.nextSubmissionId, userId := u2, challengeId := c2,
             submittedFlag := f2, isCorrect := b2, ipAddress := orNull ip2,
             userAgent := orNull ua2, submittedAt := t2 }]) := by
  rw [submitFlag_wrong_eq st userId challengeId flag now ch hcan hns hch hwrong]
  dsimp only
  refine ⟨?_, ?_, ?_, ?_, ?_, ⟨_, rfl⟩, ?_⟩
  · rw [memUpdateRateLimit_users]
    rfl
  · rw [memUpdateRateLimit_challenges]
    rfl
  · rw [memUpdateRateLimit_solves]
    rfl
  · rw [memUpdateRateLimit_flagSubmissions]
    rfl
  · intro u' c' hne
    rw [getRateLimit_memUpdateRateLimit_other _ _ _ _ _ _ _ _ hne]
    rfl
  · intro st2 u2 c2 f2 b2 ip2 ua2 t2
    exact ⟨rfl, rfl, rfl, rfl, rfl⟩

/-- C8 witness: Alice submits a wrong flag on the fresh state. -/
theorem wrong_flag_frame_witness :
    canSubmitFlag baseSt 1 1 0 = true ∧
    getSolve baseSt 1 1 = none ∧
    getChallenge baseSt 1 = some demoChallenge ∧
    flagMatches "nope" demoChallenge.flag = false ∧
    ((submitFlag baseSt 1 1 "nope" 0).1.users = baseSt.users ∧
     (submitFlag baseSt 1 1 "nope" 0).1.challenges = baseSt.challenges ∧
     (submitFlag baseSt 1 1 "nope" 0).1.solves = baseSt.solves ∧
     (submitFlag baseSt 1 1 "nope" 0).1.flagSubmissions =
       baseSt.flagSubmissions ++
         [{ id := baseSt.nextSubmissionId, userId := 1, challengeId := 1,
            submittedFlag := "nope", isCorrect := false, ipAddress := none,
            userAgent := none, submittedAt := 0 }] ∧
     (∀ u' c', ¬(u' = 1 ∧ c' = 1) →
       getRateLimit (submitFlag baseSt 1 1 "nope" 0).1 u' c' = getRateLimit baseSt u' c') ∧
     (∃ d, (submitFlag baseSt 1 1 "nope" 0).2 = SubmitResult.incorrect d) ∧
     (∀ st2 : StorageState, ∀ u2 c2 : Nat, ∀ f2 : String, ∀ b2 : Bool,
       ∀ ip2 ua2 : Option String, ∀ t2 : Int,
       (createFlagSubmissionDb st2 u2 c2 f2 b2 ip2 ua2 t2).users = st2.users ∧
       (createFlagSubmissionDb st2 u2 c2 f2 b2 ip2 ua2 t2).challenges = st2.challenges ∧
       (createFlagSubmissionDb st2 u2 c2 f2 b2 ip2 ua2 t2).solves = st2.solves ∧
       (createFlagSubmissionDb st2 u2 c2 f2 b2 ip2 ua2 t2).rateLimits = st2.rateLimits ∧
       (createFlagSubmissionDb st2 u2 c2 f2 b2 ip2 ua2 t2).flagSubmissions =
         st2.flagSubmissions ++
           [{ id := st2.nextSubmissionId, userId := u2, challengeId := c2,
              submittedFlag := f2, isCorrect := b2, ipAddress := orNull ip2,
              userAgent := orNull ua2, submittedAt := t2 }])) :=
  ⟨by decide, by decide, by decide, by decide,
   wrong_flag_frame baseSt 1 1 "nope" 0 demoChallenge
     (by decide) (by decide) (by decide) (by decide)⟩

/-- Rows of the sorted forensics list are wrong submissions of the requested
challenge, drawn from the stored log. -/
theorem mem_forensicsSorted (st : StorageState) (c : Nat) (hc : c ≠ 0) :
    ∀ s ∈ forensicsSorted st (some c),
      s ∈ st.flagSubmissions ∧ s.challengeId = c ∧ s.isCorrect = false := by
  intro s hs
  unfold forensicsSorted at hs
  have hperm := List.mergeSort_perm (st.flagSubmissions.filter (forensicsWrongFilter (some c)))
    (fun a b => b.submittedAt ≤ a.submittedAt)
  have hsf := hperm.mem_iff.mp hs
  rw [List.mem_filter] at hsf
  obtain ⟨hmem, hpred⟩ := hsf
  unfold forensicsWrongFilter at hpred
  dsimp only at hpred
  rw [if_pos hc] at hpred
  rw [Bool.and_eq_true, beq_iff_eq] at hpred
  refine ⟨hmem, hpred.2, ?_⟩
  have hneg := hpred.1
  cases hcor : s.isCorrect
  · rfl
  · rw [hcor] at hneg
    exact absurd hneg (by decide)

/-- The sorted forensics list is ordered by submission time, newest first. -/
theorem forensicsSorted_sorted (st : StorageState) (c : Option Nat) :
    (forensicsSorted st c).Pairwise
      (fun a b => (decide (b.submittedAt ≤ a.submittedAt)) = true) := by
  unfold forensicsSorted
  apply List.sorted_mergeSort
  · intro a b d hab hbd
    simp only [decide_eq_true_eq] at hab hbd ⊢
    omega
  · intro a b
    rw [Bool.or_eq_true]
    simp only [decide_eq_true_eq]
    omega

/-- Entry `i` of the time-gap list is the floored second difference between
the `i`-th and the `(i+1)`-th submission of the sorted list. -/
theorem timeGaps_get (l : List FlagSubmission) (i : Nat) (hi : i + 1 < l.length)
    (hg : i < (List.zipWith (fun a b => Int.fdiv (a.submittedAt - b.submittedAt) 1000)
        l (l.drop 1)).length) :
    (List.zipWith (fun a b => Int.fdiv (a.submittedAt - b.submittedAt) 1000)
        l (l.drop 1)).get ⟨i, hg⟩ =
      Int.fdiv ((l.get ⟨i, Nat.lt_of_succ_lt hi⟩).submittedAt -
        (l.get ⟨i + 1, hi⟩).submittedAt) 1000 := by
  have hdrop : i < (l.drop 1).length := by
    rw [List.length_drop]
    omega
  have hlt : 1 + i < l.length := by omega
  have hfin : (⟨1 + i, hlt⟩ : Fin l.length) = ⟨i + 1, hi⟩ := Fin.ext (Nat.add_comm 1 i)
  have hkey : (l.drop 1).get ⟨i, hdrop⟩ = l.get ⟨i + 1, hi⟩ := by
    rw [← hfin, List.get_eq_getElem, List.get_eq_getElem, List.getElem_drop]
  rw [List.get_eq_getElem, List.getElem_zipWith]
  conv_rhs => rw [← hkey]
  rfl

/-- C9: `getSubmissionForensics` with a challenge filter is computed only from
that challenge's submissions: the result is unchanged when the log is first
restricted to the challenge (first conjunct); every reported wrong flag,
ip, and user-agent comes from a stored wrong submission of that challenge
(next three); and the time-gap list has one entry per consecutive pair of the
time-ordered submissions, each gap being the whole-second difference between a
submission and the chronologically previous one (last two). -/
theorem forensics_challenge_scoped (st : StorageState) (c : Nat) (hc : c ≠ 0) :
    getSubmissionForensics st (some c) =
      getSubmissionForensics
        { st with flagSubmissions := st.flagSubmissions.filter (fun s => s.challengeId == c) }
        (some c) ∧
    (∀ f ∈ (getSubmissionForensics st (some c)).wrongFlags,
      ∃ s ∈ st.flagSubmissions,
        s.challengeId = c ∧ s.isCorrect = false ∧ s.submittedFlag = f) ∧
    (∀ ip ∈ (getSubmissionForensics st (some c)).ipLogs,
      ∃ s ∈ st.flagSubmissions,
        s.challengeId = c ∧ s.isCorrect = false ∧ s.ipAddress = some ip) ∧
    (∀ ua ∈ (getSubmissionForensics st (some c)).browserFingerprints,
      ∃ s ∈ st.flagSubmissions,
        s.challengeId = c ∧ s.isCorrect = false ∧ s.userAgent = some ua) ∧
    (getSubmissionForensics st (some c)).timeGaps.length + 1 =
      max 1 (forensicsSorted st (some c)).length ∧
    (∀ i, ∀ hi : i + 1 < (forensicsSorted st (some c)).length,
      ∀ hg : i < (getSubmissionForensics st (some c)).timeGaps.length,
      ((forensicsSorted st (some c)).get ⟨i + 1, hi⟩).submittedAt ≤
        ((forensicsSorted st (some c)).get ⟨i, Nat.lt_of_succ_lt hi⟩).submittedAt ∧
      (getSubmissionForensics st (some c)).timeGaps.get ⟨i, hg⟩ =
        Int.fdiv
          (((forensicsSorted st (some c)).get ⟨i, Nat.lt_of_succ_lt hi⟩).submittedAt -
            ((forensicsSorted st (some c)).get ⟨i + 1, hi⟩).submittedAt) 1000) := by
  have hfilter_eq : forensicsSorted
      { st with flagSubmissions := st.flagSubmissions.filter (fun s => s.challengeId == c) }
      (some c) = forensicsSorted st (some c) := by
    unfold forensicsSorted
    dsimp only
    rw [List.filter_filter]
    have hpred : (fun a => forensicsWrongFilter (some c) a && (a.challengeId == c)) =
        forensicsWrongFilter (some c) := by
      funext a
      unfold forensicsWrongFilter
      dsimp only
      rw [if_pos hc, Bool.and_assoc, Bool.and_self]
    rw [hpred]
  refine ⟨?_, ?_, ?_, ?_, ?_, ?_⟩
  · unfold getSubmissionForensics
    rw [hfilter_eq]
  · intro f hf
    have hf' : f ∈ dedupFirst ((forensicsSorted st (some c)).map
        (fun s => s.submittedFlag)) := hf
    have hf2 := mem_dedupFirst hf'
    rw [List.mem_map] at hf2
    obtain ⟨s, hs, heq⟩ := hf2
    obtain ⟨hmem, hch, hcor⟩ := mem_forensicsSorted st c hc s hs
    exact ⟨s, hmem, hch, hcor, heq⟩
  · intro ip hip
    have hip' : ip ∈ dedupFirst (((forensicsSorted st (some c)).filterMap
        (fun s => s.ipAddress)).filter (fun x => x ≠ "")) := hip
    have hip2 := mem_dedupFirst hip'
    rw [List.mem_filter] at hip2
    rw [List.mem_filterMap] at hip2
    obtain ⟨⟨s, hs, heq⟩, _⟩ := hip2
    obtain ⟨hmem, hch, hcor⟩ := mem_forensicsSorted st c hc s hs
    exact ⟨s, hmem, hch, hcor, heq⟩
  · intro ua hua
    have hua' : ua ∈ dedupFirst (((forensicsSorted st (some c)).filterMap
        (fun s => s.userAgent)).filter (fun x => x ≠ "")) := hua
    have hua2 := mem_dedupFirst hua'
    rw [List.mem_filter] at hua2
    rw [List.mem_filterMap] at hua2
    obtain ⟨⟨s, hs, heq⟩, _⟩ := hua2
    obtain ⟨hmem, hch, hcor⟩ := mem_forensicsSorted st c hc s hs
    exact ⟨s, hmem, hch, hcor, heq⟩
  · have hlen : (getSubmissionForensics st (some c)).timeGaps.length =
        min (forensicsSorted st (some c)).length
          ((forensicsSorted st (some c)).drop 1).length := by
      exact List.length_zipWith _ _ _
    rw [hlen, List.length_drop]
    omega
  · intro i hi hg
    constructor
    · have hsorted := forensicsSorted_sorted st (some c)
      have := (List.pairwise_iff_get.mp hsorted) ⟨i, Nat.lt_of_succ_lt hi⟩ ⟨i + 1, hi⟩
        (by exact Nat.lt_succ_self i)
      simpa using this
    · exact timeGaps_get (forensicsSorted st (some c)) i hi hg

/-- C9 witness: the mixed two-challenge submission log, filtered to
challenge 1. -/
theorem forensics_challenge_scoped_witness :
    (1 : Nat) ≠ 0 ∧
    (getSubmissionForensics forensicsSt (some 1) =
      getSubmissionForensics
        { forensicsSt with
          flagSubmissions := forensicsSt.flagSubmissions.filter (fun s => s.challengeId == 1) }
        (some 1) ∧
    (∀ f ∈ (getSubmissionForensics forensicsSt (some 1)).wrongFlags,
      ∃ s ∈ forensicsSt.flagSubmissions,
        s.challengeId = 1 ∧ s.isCorrect = false ∧ s.submittedFlag = f) ∧
    (∀ ip ∈ (getSubmissionForensics forensicsSt (some 1)).ipLogs,
      ∃ s ∈ forensicsSt.flagSubmissions,
        s.challengeId = 1 ∧ s.isCorrect = false ∧ s.ipAddress = some ip) ∧
    (∀ ua ∈ (getSubmissionForensics forensicsSt (some 1)).browserFingerprints,
      ∃ s ∈ forensicsSt.flagSubmissions,
        s.challengeId = 1 ∧ s.isCorrect = false ∧ s.userAgent = some ua) ∧
    (getSubmissionForensics forensicsSt (some 1)).timeGaps.length + 1 =
      max 1 (forensicsSorted forensicsSt (some 1)).length ∧
    (∀ i, ∀ hi : i + 1 < (forensicsSorted forensicsSt (some 1)).length,
      ∀ hg : i < (getSubmissionForensics forensicsSt (some 1)).timeGaps.length,
      ((forensicsSorted forensicsSt (some 1)).get ⟨i + 1, hi⟩).submittedAt ≤
        ((forensicsSorted forensicsSt (some 1)).get ⟨i, Nat.lt_of_succ_lt hi⟩).submittedAt ∧
      (getSubmissionForensics forensicsSt (some 1)).timeGaps.get ⟨i, hg⟩ =
        Int.fdiv
          (((forensicsSorted forensicsSt (some 1)).get ⟨i, Nat.lt_of_succ_lt hi⟩).submittedAt -
            ((forensicsSorted forensicsSt (some 1)).get ⟨i + 1, hi⟩).submittedAt) 1000)) :=
  ⟨by decide, forensics_challenge_scoped forensicsSt 1 (by decide)⟩

end AOHF
